import Mathlib

/-!
Shallow embedding of the signal-computation core of the stock-market
technical-analysis repository (backend/core): pivot detection and
multi-timeframe opportunity classification (dow_theory.py), RSI and MACD
computation and classification (technical_indicators.py), and
relative-strength ranking (sector_scanner.py).  Prices are modelled as
rationals; Python None is modelled by Option; Python dictionaries by
association lists; a Python function that can raise is modelled with
Except.
-/

namespace StockTA

/-- Stable insertion sort: the element earlier in the input goes first on
ties, which is the stability guarantee of the Python list sort used by the
source (with reverse=True expressed through the comparison function). -/
def insSorted (le : α → α → Bool) (a : α) : List α → List α
  | [] => [a]
  | b :: bs => if le a b then a :: b :: bs else b :: insSorted le a bs

/-- Stable sort by repeated insertion, extensionally the Python stable sort. -/
def pySort (le : α → α → Bool) : List α → List α
  | [] => []
  | a :: as => insSorted le a (pySort le as)

/-- Round-half-even to an integer, the rounding mode of the Python round
builtin used by the source before comparisons. -/
def roundHalfEven (q : ℚ) : ℤ :=
  let f := ⌊q⌋
  let r := q - f
  if r < 1/2 then f
  else if 1/2 < r then f + 1
  else if f % 2 = 0 then f else f + 1

/-- Python round(x, 2): round half to even at two decimal places. -/
def round2 (q : ℚ) : ℚ := (roundHalfEven (q * 100) : ℚ) / 100

/-- Python dict.get(k, dflt) over an association list with Option-valued
entries (a stored None and the default are both representable). -/
def dictGet (d : List (String × Option ℚ)) (k : String) (dflt : Option ℚ) : Option ℚ :=
  match d.find? (fun kv => kv.1 == k) with
  | some kv => kv.2
  | none => dflt

/-- Python substring membership (sub in hay) over character lists. -/
def containsSub (hay sub : List Char) : Bool :=
  match hay with
  | [] => sub.isEmpty
  | _ :: t => sub.isPrefixOf hay || containsSub t sub

/-- Python (sub in hay) for strings. -/
def pyIn (sub hay : String) : Bool := containsSub hay.data sub.data

/-! ## dow_theory.py : pivot detection -/

/-- Body of the loop of DowTheoryAnalyzer.find_pivot_highs: index i
qualifies when it has left bars before and right bars after it, every one
of the left bars has a strictly smaller High and every one of the right
bars has a strictly smaller High (the source disqualifies on >=). -/
def isPivotHigh (highs : List ℚ) (left right i : Nat) : Bool :=
  decide (left ≤ i) && decide (i + right < highs.length) &&
  ((List.range left).all fun j => decide (highs.getD (i - (j + 1)) 0 < highs.getD i 0)) &&
  ((List.range right).all fun j => decide (highs.getD (i + (j + 1)) 0 < highs.getD i 0))

/-- DowTheoryAnalyzer.find_pivot_highs: the indices i in
range(left, len - right) that survive both strict comparisons, in order. -/
def find_pivot_highs (highs : List ℚ) (left right : Nat) : List Nat :=
  (List.range highs.length).filter (isPivotHigh highs left right)

/-- Body of the loop of DowTheoryAnalyzer.find_pivot_lows, with strict
less-than comparisons mirrored. -/
def isPivotLow (lows : List ℚ) (left right i : Nat) : Bool :=
  decide (left ≤ i) && decide (i + right < lows.length) &&
  ((List.range left).all fun j => decide (lows.getD i 0 < lows.getD (i - (j + 1)) 0)) &&
  ((List.range right).all fun j => decide (lows.getD i 0 < lows.getD (i + (j + 1)) 0))

/-- DowTheoryAnalyzer.find_pivot_lows. -/
def find_pivot_lows (lows : List ℚ) (left right : Nat) : List Nat :=
  (List.range lows.length).filter (isPivotLow lows left right)

/-! ## dow_theory.py / technical_indicators.py : session aggregation -/

/-- An intraday candle row: its calendar date, its session hour and the
OHLCV fields. -/
structure Candle where
  cdate : Nat
  hour : Nat
  copen : ℚ
  chigh : ℚ
  clow : ℚ
  cclose : ℚ
  cvol : ℚ
deriving DecidableEq

/-- One aggregate session candle built from a non-empty bucket: timestamp
and Open of the first row, max High, min Low, Close of the last row, summed
Volume.  An empty bucket yields nothing. -/
def bucketCandle : List Candle → Option Candle
  | [] => none
  | f :: rest =>
    some ⟨f.cdate, f.hour, f.copen,
      rest.foldl (fun m c => max m c.chigh) f.chigh,
      rest.foldl (fun m c => min m c.clow) f.clow,
      (rest.getLastD f).cclose,
      f.cvol + (rest.map (fun c => c.cvol)).sum⟩

/-- The rows of one calendar date falling in the first session bucket,
hours in [9,13). -/
def firstBucket (df : List Candle) (d : Nat) : List Candle :=
  (df.filter (fun c => c.cdate == d)).filter
    (fun c => decide (9 ≤ c.hour) && decide (c.hour < 13))

/-- The rows of one calendar date falling in the second session bucket,
hours >= 13. -/
def secondBucket (df : List Candle) (d : Nat) : List Candle :=
  (df.filter (fun c => c.cdate == d)).filter (fun c => decide (13 ≤ c.hour))

/-- The date-grouped loop body of aggregate_to_4h: for each date, append
the aggregate candle of each non-empty session bucket. -/
def aggRows (df : List Candle) : List Nat → List Candle
  | [] => []
  | d :: ds =>
    (bucketCandle (firstBucket df d)).toList ++
      (bucketCandle (secondBucket df d)).toList ++ aggRows df ds

/-- The distinct dates of the input in ascending order, the iteration
order of the pandas groupby of the source. -/
def sortedDates (df : List Candle) : List Nat :=
  pySort (fun a b => decide (a ≤ b)) (df.map (fun c => c.cdate)).dedup

/-- The final guard of aggregate_to_4h: an empty result list becomes the
Python None sentinel. -/
def toResult : List Candle → Option (List Candle)
  | [] => none
  | x :: xs => some (x :: xs)

/-- DowTheoryAnalyzer.aggregate_to_4h (identical code in
TechnicalAnalyzer.aggregate_to_4h): return None for an empty input, group
rows by calendar date, emit one candle per non-empty session bucket, and
return the None sentinel when no bucket produced a candle. -/
def aggregate_to_4h (df : List Candle) : Option (List Candle) :=
  if df = [] then none
  else toResult (aggRows df (sortedDates df))

/-! ## dow_theory.py : opportunity classification -/

/-- The closed enumeration of opportunity types returned by
DowTheoryAnalyzer._determine_opportunity. -/
inductive Opportunity
  | strongBuy
  | strongSellAvoid
  | pullbackBuy
  | bounceSell
  | intradayBuy
  | intradaySell
  | waitNoTrade
deriving DecidableEq

/-- DowTheoryAnalyzer._determine_opportunity: the rule cascade over the
four group labels.  The two all-alignment checks iterate only over the
labels that are truthy (non-empty) Python strings, exactly as the
generator expression with its filter does in the source. -/
def determine_opportunity (super_tide tide wave ripple : String) : Opportunity :=
  let ts := [super_tide, tide, wave, ripple]
  if (ts.filter (fun t => !(t == ""))).all (fun t => pyIn "BULLISH" t) then .strongBuy
  else if (ts.filter (fun t => !(t == ""))).all (fun t => pyIn "BEARISH" t) then .strongSellAvoid
  else if pyIn "BULLISH" super_tide && pyIn "BEARISH" tide then .pullbackBuy
  else if pyIn "BEARISH" super_tide && pyIn "BULLISH" tide then .bounceSell
  else if pyIn "BULLISH" wave && pyIn "BULLISH" ripple then .intradayBuy
  else if pyIn "BEARISH" wave && pyIn "BEARISH" ripple then .intradaySell
  else .waitNoTrade

/-! ## technical_indicators.py : RSI -/

/-- The per-index RSI formula of calculate_rsi_tradingview: 100 when the
smoothed loss is zero and the smoothed gain positive, 50 when both are
zero, otherwise 100 - 100 / (1 + rs) with rs the gain/loss ratio. -/
def rsiOf (ag al : ℚ) : ℚ :=
  if al = 0 then (if 0 < ag then 100 else 50)
  else 100 - 100 / (1 + ag / al)

/-- The RMA recurrence avg = alpha * value + (1 - alpha) * avg of the
source, folded over successive values and recording every state, so the
list holds avg at indices period-1 .. n-1. -/
def rmaScan (alpha seed : ℚ) (vals : List ℚ) : List ℚ :=
  List.scanl (fun a v => alpha * v + (1 - alpha) * a) seed vals

/-- The delta array of calculate_rsi_tradingview: entry 0 stays zero,
entry i holds close i minus close (i-1). -/
def rsiDeltas (close : List ℚ) : List ℚ :=
  0 :: List.zipWith (fun a b => a - b) (close.drop 1) close

/-- The gain series: positive deltas, else zero. -/
def rsiGains (close : List ℚ) : List ℚ :=
  (rsiDeltas close).map (fun d => max d 0)

/-- The loss series: negated negative deltas, else zero. -/
def rsiLosses (close : List ℚ) : List ℚ :=
  (rsiDeltas close).map (fun d => max (-d) 0)

/-- The SMA seed of the smoothed average: the mean of entries 1..period of
the gain or loss series. -/
def rsiSeed (xs : List ℚ) (period : Nat) : ℚ :=
  ((xs.drop 1).take period).sum / (period : ℚ)

/-- The smoothed averages at indices period-1 .. n-1: the SMA seed at
index period-1 followed by the RMA recurrence over the later entries. -/
def rsiAvgs (xs : List ℚ) (period : Nat) : List ℚ :=
  rmaScan (1 / (period : ℚ)) (rsiSeed xs period) (xs.drop period)

/-- calculate_rsi_tradingview: deltas of closes, gains and losses, an SMA
seed over deltas 1..period, Wilder smoothing with alpha = 1/period from
index period onwards, and the RSI series whose entries before index
period-1 stay at the zero the numpy array was initialised with. -/
def calculate_rsi_tradingview (close : List ℚ) (period : Nat) : List ℚ :=
  if close.length < period + 1 then []
  else
    List.replicate (period - 1) 0 ++
      List.zipWith rsiOf (rsiAvgs (rsiGains close) period) (rsiAvgs (rsiLosses close) period)

/-! ## technical_indicators.py : RSI classification -/

/-- The RSIZone enumeration of the source. -/
inductive RSIZone
  | unsustainableBulls
  | bullishMomentum
  | near60
  | near50
  | swingZone
  | near40
  | bearishMomentum
  | unsustainableBears
  | notClear
deriving DecidableEq

/-- classify_rsi: the None / NaN guard first, then the value is rounded to
two decimals and run through the high-to-low threshold cascade, with the
Swing Zone return as the final fallback. -/
def classify_rsi : Option ℚ → RSIZone
  | none => .notClear
  | some v0 =>
    if 78 ≤ round2 v0 then .unsustainableBulls
    else if 60 < round2 v0 then .bullishMomentum
    else if 55 ≤ round2 v0 then .near60
    else if 45 ≤ round2 v0 then .near50
    else if 40 ≤ round2 v0 then .near40
    else if round2 v0 ≤ 22 then .unsustainableBears
    else if round2 v0 < 40 then .bearishMomentum
    else .swingZone

/-! ## technical_indicators.py : MACD classification -/

/-- The MACDSignal enumeration of the source.  The uptick-near-zero branch
of classify_macd returns the Up Tick Below Zero member and the
downtick-near-zero branch returns the Down Tick Above Zero member, exactly
as in the source. -/
inductive MACDSig
  | pcoAboveZero
  | pcoBelowZero
  | pcoNearZero
  | ncoBelowZero
  | ncoAboveZero
  | ncoNearZero
  | uptickAboveZero
  | uptickBelowZero
  | downtickAboveZero
  | downtickBelowZero
  | macdNeutral
  | noData
deriving DecidableEq

/-- The current value used by classify_macd: the last array entry rounded
to two decimals by the Python round builtin. -/
def lastRounded (l : List ℚ) : ℚ := round2 (l.getLastD 0)

/-- The previous value used by classify_macd: the second-to-last array
entry rounded to two decimals. -/
def prevRounded (l : List ℚ) : ℚ := round2 (l.dropLast.getLastD 0)

/-- classify_macd on the macd and signal arrays of the dict produced by
calculate_macd (both have the same length there): the length guard, the
four values rounded to two decimals, crossover detection, tick direction
and zero-band position, and the priority cascade crossover before tick. -/
def classify_macd (macd_line signal_line : List ℚ) (zt : ℚ) : MACDSig :=
  if macd_line.length < 2 then .noData
  else if prevRounded macd_line ≤ prevRounded signal_line ∧
      lastRounded signal_line < lastRounded macd_line then
    if zt < lastRounded macd_line then .pcoAboveZero
    else if -zt ≤ lastRounded macd_line ∧ lastRounded macd_line ≤ zt then .pcoNearZero
    else .pcoBelowZero
  else if prevRounded signal_line ≤ prevRounded macd_line ∧
      lastRounded macd_line < lastRounded signal_line then
    if lastRounded macd_line < -zt then .ncoBelowZero
    else if -zt ≤ lastRounded macd_line ∧ lastRounded macd_line ≤ zt then .ncoNearZero
    else .ncoAboveZero
  else if prevRounded macd_line < lastRounded macd_line then
    if zt < lastRounded macd_line then .uptickAboveZero
    else if -zt ≤ lastRounded macd_line ∧ lastRounded macd_line ≤ zt then .uptickBelowZero
    else .uptickBelowZero
  else if lastRounded macd_line < prevRounded macd_line then
    if lastRounded macd_line < -zt then .downtickBelowZero
    else if -zt ≤ lastRounded macd_line ∧ lastRounded macd_line ≤ zt then .downtickAboveZero
    else .downtickAboveZero
  else .macdNeutral

/-- The three crossover-positive classifications of classify_macd. -/
def isPCOsig : MACDSig → Bool
  | .pcoAboveZero => true
  | .pcoBelowZero => true
  | .pcoNearZero => true
  | _ => false

/-- The three crossover-negative classifications of classify_macd. -/
def isNCOsig : MACDSig → Bool
  | .ncoAboveZero => true
  | .ncoBelowZero => true
  | .ncoNearZero => true
  | _ => false

/-! ## sector_scanner.py : relative strength, categorisation, ranking -/

/-- A sector or stock analysis record as consumed by categorize_sectors
and get_sector_ranking: its name, its per-period relative-strength dict
(an entry can hold a stored None) and the benchmark flag. -/
structure SectorRec where
  sname : String
  relative : List (String × Option ℚ)
  is_benchmark : Bool
deriving DecidableEq

/-- SectorRelativeStrength.calculate_relative_strength: one entry per
period of the instrument dict, holding the difference when both sides are
non-None numbers and None otherwise (a period missing from the benchmark
dict reads as None through dict.get). -/
def calculate_relative_strength (sector_returns benchmark_returns : List (String × Option ℚ)) :
    List (String × Option ℚ) :=
  sector_returns.map (fun pr =>
    match pr.2, (dictGet benchmark_returns pr.1 none) with
    | some a, some b => (pr.1, some (a - b))
    | _, _ => (pr.1, none))

/-- The Python expression x.relative.get(timeframe, 0) or -999 used as the
sort key by get_sector_ranking and get_stock_ranking: dict.get falls back
to 0 on a missing key, and the or operator replaces the falsy values None
and 0 by the -999 sentinel. -/
def rankKey (s : SectorRec) (tf : String) : ℚ :=
  match dictGet s.relative tf (some 0) with
  | none => -999
  | some q => if q = 0 then -999 else q

/-- Claim-side key, following the words of the specification rather than
the source: rank descending by the relative-strength value itself, with
only a None value treated as the -999 sentinel.  Kept separate so the
source key rankKey can be compared against it. -/
def spec_rank_key (s : SectorRec) (tf : String) : ℚ :=
  match dictGet s.relative tf none with
  | none => -999
  | some v => v

/-- SectorRelativeStrength.get_sector_ranking: drop the benchmark record,
then stable-sort descending by rankKey (the rank field the source then
writes is the 1-based output position). -/
def get_sector_ranking (results : List SectorRec) (tf : String) : List SectorRec :=
  pySort (fun a b => decide (rankKey b tf ≤ rankKey a tf))
    (results.filter (fun s => !s.is_benchmark))

/-- StockRelativeStrength.get_stock_ranking: stable sort of all records
descending by the same rankKey. -/
def get_stock_ranking (stocks_data : List SectorRec) (tf : String) : List SectorRec :=
  pySort (fun a b => decide (rankKey b tf ≤ rankKey a tf)) stocks_data

/-- The lookup sector.relative.get(timeframe) (default None) performed by
categorize_sectors. -/
def relAt (s : SectorRec) (tf : String) : Option ℚ :=
  dictGet s.relative tf none

/-- The sort key x.relative.get(timeframe, 0) used on the outperforming
and underperforming buckets (no or-sentinel there); within those buckets
the stored value is always a number. -/
def catKey (s : SectorRec) (tf : String) : ℚ :=
  (dictGet s.relative tf (some 0)).getD 0

/-- The records categorize_sectors does not skip: non-benchmark records
whose relative strength on the timeframe is not None. -/
def keepList (results : List SectorRec) (tf : String) : List SectorRec :=
  results.filter (fun s => !s.is_benchmark && (relAt s tf).isSome)

/-- SectorRelativeStrength.categorize_sectors: skip benchmark records and
records whose relative strength on the timeframe is None; strict > 1.0
into outperforming, strict < -1.0 into underperforming, the rest into
neutral; outperforming sorted descending and underperforming ascending by
the relative strength. -/
def categorize_sectors (results : List SectorRec) (tf : String) :
    List SectorRec × List SectorRec × List SectorRec :=
  (pySort (fun a b => decide (catKey b tf ≤ catKey a tf))
     ((keepList results tf).filter (fun s => decide (1 < (relAt s tf).getD 0))),
   (keepList results tf).filter (fun s =>
     !(decide (1 < (relAt s tf).getD 0)) && !(decide ((relAt s tf).getD 0 < -1))),
   pySort (fun a b => decide (catKey a tf ≤ catKey b tf))
     ((keepList results tf).filter (fun s => decide ((relAt s tf).getD 0 < -1))))

/-- The per-symbol loop of StockRelativeStrength.analyze_sector_stocks:
the fetch-and-compute step for one symbol is a fallible operation; a
symbol whose step raises is skipped by the try/except and the loop
continues with the rest. -/
def analyze_sector_stocks (f : σ → Except ε α) : List σ → List α
  | [] => []
  | s :: rest =>
    match f s with
    | Except.ok a => a :: analyze_sector_stocks f rest
    | Except.error _ => analyze_sector_stocks f rest

/-! ## Helper lemmas -/

theorem insSorted_perm (le : α → α → Bool) (a : α) (l : List α) :
    List.Perm (insSorted le a l) (a :: l) := by
  induction l with
  | nil => rfl
  | cons b bs ih =>
    rw [insSorted]
    split
    · rfl
    · exact (List.Perm.cons b ih).trans (List.Perm.swap a b bs)

theorem pySort_perm (le : α → α → Bool) (l : List α) :
    List.Perm (pySort le l) l := by
  induction l with
  | nil => rfl
  | cons a as ih => exact (insSorted_perm le a (pySort le as)).trans (List.Perm.cons a ih)

theorem pairwise_insSorted (le : α → α → Bool)
    (htrans : ∀ a b c, le a b = true → le b c = true → le a c = true)
    (htot : ∀ a b, le a b = false → le b a = true)
    (a : α) (l : List α) (h : l.Pairwise (fun x y => le x y = true)) :
    (insSorted le a l).Pairwise (fun x y => le x y = true) := by
  induction l with
  | nil => simp [insSorted]
  | cons b bs ih =>
    rw [List.pairwise_cons] at h
    obtain ⟨hb, hbs⟩ := h
    rw [insSorted]
    split
    case isTrue hab =>
      rw [List.pairwise_cons]
      refine ⟨?_, List.pairwise_cons.mpr ⟨hb, hbs⟩⟩
      intro x hx
      rcases List.mem_cons.mp hx with rfl | hx
      · exact hab
      · exact htrans a b x hab (hb x hx)
    case isFalse hab =>
      rw [List.pairwise_cons]
      refine ⟨?_, ih hbs⟩
      intro x hx
      have hx' := (insSorted_perm le a bs).mem_iff.mp hx
      rcases List.mem_cons.mp hx' with h | hx'
      · rw [h]; exact htot a b (by simpa using hab)
      · exact hb x hx'

theorem pySort_pairwise (le : α → α → Bool)
    (htrans : ∀ a b c, le a b = true → le b c = true → le a c = true)
    (htot : ∀ a b, le a b = false → le b a = true)
    (l : List α) : (pySort le l).Pairwise (fun x y => le x y = true) := by
  induction l with
  | nil => simp [pySort]
  | cons a as ih => exact pairwise_insSorted le htrans htot a _ ih

theorem exists_of_mem_zipWith {α β γ : Type} {f : α → β → γ} {c : γ} :
    ∀ {as : List α} {bs : List β}, c ∈ List.zipWith f as bs →
      ∃ a b, a ∈ as ∧ b ∈ bs ∧ c = f a b := by
  intro as
  induction as with
  | nil => intro bs h; simp at h
  | cons a as ih =>
    intro bs h
    cases bs with
    | nil => simp at h
    | cons b bs =>
      rw [List.zipWith_cons_cons] at h
      rcases List.mem_cons.mp h with h | h
      · exact ⟨a, b, List.mem_cons_self a as, List.mem_cons_self b bs, h⟩
      · obtain ⟨x, y, hx, hy, hc⟩ := ih h
        exact ⟨x, y, List.mem_cons_of_mem a hx, List.mem_cons_of_mem b hy, hc⟩

theorem rmaScan_nonneg (alpha : ℚ) (h0 : 0 ≤ alpha) (h1 : alpha ≤ 1) :
    ∀ (vals : List ℚ) (seed : ℚ), 0 ≤ seed → (∀ x ∈ vals, 0 ≤ x) →
      ∀ y ∈ rmaScan alpha seed vals, 0 ≤ y := by
  intro vals
  induction vals with
  | nil =>
    intro seed hseed _ y hy
    rw [rmaScan, List.scanl_nil, List.mem_singleton] at hy
    exact hy ▸ hseed
  | cons x xs ih =>
    intro seed hseed hvals y hy
    rw [rmaScan, List.scanl_cons] at hy
    rcases List.mem_append.mp hy with hy | hy
    · rw [List.mem_singleton] at hy
      exact hy ▸ hseed
    · refine ih (alpha * x + (1 - alpha) * seed) ?_ (fun z hz => hvals z (List.mem_cons_of_mem x hz)) y hy
      have hx : 0 ≤ x := hvals x (List.mem_cons_self x xs)
      have := mul_nonneg h0 hx
      have := mul_nonneg (by linarith : (0:ℚ) ≤ 1 - alpha) hseed
      linarith

theorem rsiOf_bounds (ag al : ℚ) (hag : 0 ≤ ag) (hal : 0 ≤ al) :
    0 ≤ rsiOf ag al ∧ rsiOf ag al ≤ 100 := by
  rw [rsiOf]
  split
  · split <;> norm_num
  · rename_i hne
    have hal' : 0 < al := lt_of_le_of_ne hal (Ne.symm hne)
    have hrs : 0 ≤ ag / al := div_nonneg hag hal
    have hpos : 0 < 1 + ag / al := by linarith
    have hle : 100 / (1 + ag / al) ≤ 100 := by
      rw [div_le_iff₀ hpos]; nlinarith
    have hgt : 0 < 100 / (1 + ag / al) := by positivity
    constructor <;> linarith

theorem rsiGains_nonneg (close : List ℚ) : ∀ x ∈ rsiGains close, 0 ≤ x := by
  intro x hx
  rw [rsiGains] at hx
  obtain ⟨d, _, rfl⟩ := List.mem_map.mp hx
  exact le_max_right d 0

theorem rsiLosses_nonneg (close : List ℚ) : ∀ x ∈ rsiLosses close, 0 ≤ x := by
  intro x hx
  rw [rsiLosses] at hx
  obtain ⟨d, _, rfl⟩ := List.mem_map.mp hx
  exact le_max_right (-d) 0

theorem rsiAvgs_nonneg (xs : List ℚ) (period : Nat) (hp : 1 ≤ period)
    (hxs : ∀ x ∈ xs, 0 ≤ x) : ∀ y ∈ rsiAvgs xs period, 0 ≤ y := by
  have hper : (1:ℚ) ≤ (period : ℚ) := by exact_mod_cast hp
  refine rmaScan_nonneg (1 / (period : ℚ)) (by positivity) ?_ (xs.drop period) _ ?_ ?_
  · rw [div_le_one (by linarith)]; exact hper
  · rw [rsiSeed]
    refine div_nonneg (List.sum_nonneg ?_) (by positivity)
    intro x hx
    exact hxs x (List.mem_of_mem_drop (List.mem_of_mem_take hx))
  · intro x hx
    exact hxs x (List.mem_of_mem_drop hx)

/-! ## Claim theorems -/

/-- C1: for every candle sequence and window parameters, find_pivot_highs
reports an index i with left preceding and right following bars available
as a pivot high iff High i is strictly greater than every High of the left
preceding bars and strictly greater than every High of the right following
bars; an equal high disqualifies, so the flat plateau [10,10,10,10,10]
with left=right=2 yields no pivot at all. -/
theorem pivot_high_strict (highs : List ℚ) (left right i : Nat)
    (h1 : left ≤ i) (h2 : i + right < highs.length) :
    (i ∈ find_pivot_highs highs left right ↔
      ((∀ j, 1 ≤ j → j ≤ left → highs.getD (i - j) 0 < highs.getD i 0) ∧
       (∀ j, 1 ≤ j → j ≤ right → highs.getD (i + j) 0 < highs.getD i 0)))
    ∧ find_pivot_highs [10, 10, 10, 10, 10] 2 2 = [] := by
  refine ⟨?_, by decide⟩
  rw [find_pivot_highs, List.mem_filter, List.mem_range, isPivotHigh]
  simp only [Bool.and_eq_true, decide_eq_true_eq, List.all_eq_true, List.mem_range]
  constructor
  · rintro ⟨hi, ⟨⟨-, hL⟩, hR⟩⟩
    refine ⟨?_, ?_⟩
    · intro j hj1 hj2
      have h := hL (j - 1) (by omega)
      have hj : j - 1 + 1 = j := by omega
      rwa [hj] at h
    · intro j hj1 hj2
      have h := hR (j - 1) (by omega)
      have hj : j - 1 + 1 = j := by omega
      rwa [hj] at h
  · rintro ⟨hL, hR⟩
    refine ⟨by omega, ⟨⟨⟨h1, h2⟩, ?_⟩, ?_⟩⟩
    · intro j hj
      exact hL (j + 1) (by omega) (by omega)
    · intro j hj
      exact hR (j + 1) (by omega) (by omega)

/-- C1 witness: on highs [1,2,3,2,1] with left=right=2 the theorem yields
index 2 as a pivot high, while the flat plateau yields none. -/
theorem pivot_high_strict_witness :
    2 ∈ find_pivot_highs [1, 2, 3, 2, 1] 2 2
    ∧ find_pivot_highs [10, 10, 10, 10, 10] 2 2 = [] := by
  have h := pivot_high_strict [1, 2, 3, 2, 1] 2 2 2 (by decide) (by decide)
  refine ⟨h.1.mpr ⟨?_, ?_⟩, h.2⟩ <;>
    · intro j hj1 hj2
      interval_cases j <;> decide

/-- C2: with a positive period, every entry of the RSI series computed by
calculate_rsi_tradingview lies between 0 and 100 inclusive. -/
theorem rsi_bounds (close : List ℚ) (period : Nat) (hp : 1 ≤ period) :
    ∀ v ∈ calculate_rsi_tradingview close period, 0 ≤ v ∧ v ≤ 100 := by
  intro v hv
  rw [calculate_rsi_tradingview] at hv
  split at hv
  · simp at hv
  · rcases List.mem_append.mp hv with hv | hv
    · have hz := List.eq_of_mem_replicate hv
      subst hz
      norm_num
    · obtain ⟨ag, al, hag, hal, rfl⟩ := exists_of_mem_zipWith hv
      exact rsiOf_bounds ag al
        (rsiAvgs_nonneg _ period hp (rsiGains_nonneg close) ag hag)
        (rsiAvgs_nonneg _ period hp (rsiLosses_nonneg close) al hal)

/-- C2 witness: for closes [1,2,3] with period 1 the series contains the
value 100, which the theorem brackets into [0, 100]. -/
theorem rsi_bounds_witness :
    (100:ℚ) ∈ calculate_rsi_tradingview [1, 2, 3] 1
    ∧ (0 ≤ (100:ℚ) ∧ (100:ℚ) ≤ 100) := by
  have hm : (100:ℚ) ∈ calculate_rsi_tradingview [1, 2, 3] 1 := by
    norm_num [calculate_rsi_tradingview, rsiAvgs, rsiGains, rsiLosses, rsiDeltas,
      rsiSeed, rmaScan, rsiOf, List.scanl]
  exact ⟨hm, rsi_bounds [1, 2, 3] 1 (by norm_num) 100 hm⟩

/-- C3: analyze_sector_stocks skips a symbol whose fetch-or-compute step
raises and continues, so scanning [A, B(fails), C] yields exactly the two
analyses of A and C, and in general the output is exactly the list of
successful analyses in input order. -/
theorem analyze_sector_stocks_skips {σ α ε : Type} (f : σ → Except ε α)
    (A B C : σ) (a c : α) (e : ε)
    (hA : f A = Except.ok a) (hB : f B = Except.error e) (hC : f C = Except.ok c) :
    analyze_sector_stocks f [A, B, C] = [a, c]
    ∧ ∀ syms : List σ, analyze_sector_stocks f syms =
        syms.filterMap (fun s => (f s).toOption) := by
  constructor
  · simp [analyze_sector_stocks, hA, hB, hC]
  · intro syms
    induction syms with
    | nil => rfl
    | cons s rest ih =>
      cases hfs : f s with
      | ok x => simp [analyze_sector_stocks, hfs, ih, Except.toOption]
      | error ex => simp [analyze_sector_stocks, hfs, ih, Except.toOption]

/-- C3 witness: with the step failing exactly on symbol 1, the batch over
[0, 1, 2] returns the analyses of 0 and 2. -/
theorem analyze_sector_stocks_skips_witness :
    analyze_sector_stocks (fun n : Nat => if n = 1 then Except.error () else Except.ok n)
        [0, 1, 2] = [0, 2]
    ∧ ∀ syms : List Nat,
        analyze_sector_stocks (fun n : Nat => if n = 1 then Except.error () else Except.ok n) syms
          = syms.filterMap
              (fun s => ((fun n : Nat => if n = 1 then Except.error () else Except.ok n) s).toOption) :=
  analyze_sector_stocks_skips _ 0 1 2 0 2 () (by rfl) (by rfl) (by rfl)

/-- C4 counterexample: on an empty candle sequence aggregate_to_4h returns
the Python None sentinel, not an empty output sequence. -/
theorem aggregate_to_4h_empty_cex :
    aggregate_to_4h [] = none ∧ aggregate_to_4h [] ≠ some [] :=
  ⟨rfl, by decide⟩

/-- C4 amended: aggregate_to_4h returns the None sentinel (raising no
exception) on an empty input, and likewise on an input none of whose
candles falls in either session bucket. -/
theorem aggregate_to_4h_none_sentinel (df : List Candle)
    (hall : ∀ cc ∈ df, cc.hour < 9) : aggregate_to_4h df = none := by
  rw [aggregate_to_4h]
  split
  · rfl
  · have hrows : ∀ ds : List Nat, aggRows df ds = [] := by
      intro ds
      induction ds with
      | nil => rfl
      | cons d rest ih =>
        have h1 : firstBucket df d = [] := by
          rw [firstBucket, List.filter_eq_nil_iff]
          intro a ha
          have h9 := hall a (List.mem_of_mem_filter ha)
          simp only [Bool.and_eq_true, decide_eq_true_eq, not_and]
          omega
        have h2 : secondBucket df d = [] := by
          rw [secondBucket, List.filter_eq_nil_iff]
          intro a ha
          have h9 := hall a (List.mem_of_mem_filter ha)
          simp only [decide_eq_true_eq]
          omega
        rw [aggRows, h1, h2, ih]
        rfl
    rw [hrows]
    rfl

/-- C4 witness: a single pre-market candle (hour 8) falls in neither
session bucket and the aggregation returns the None sentinel. -/
theorem aggregate_to_4h_none_sentinel_witness :
    aggregate_to_4h [⟨1, 8, 1, 1, 1, 1, 1⟩] = none :=
  aggregate_to_4h_none_sentinel _ (by decide)

/-- C5 counterexample: a record whose relative strength is exactly 0 is
ranked below a record at -1/1, because the Python or-sentinel also
replaces the falsy value 0 by -999; so the output is not in descending
order of the relative-strength values with only None as -999. -/
theorem get_sector_ranking_zero_cex :
    get_sector_ranking
        [⟨"A", [("Weekly", some 0)], false⟩, ⟨"B", [("Weekly", some (-1))], false⟩] "Weekly"
      = [⟨"B", [("Weekly", some (-1))], false⟩, ⟨"A", [("Weekly", some 0)], false⟩]
    ∧ ¬ (List.Pairwise (fun x y => spec_rank_key y "Weekly" ≤ spec_rank_key x "Weekly")
        (get_sector_ranking
          [⟨"A", [("Weekly", some 0)], false⟩, ⟨"B", [("Weekly", some (-1))], false⟩] "Weekly")) := by
  decide

/-- C5 amended: the sector ranking returns the non-benchmark records (and
the stock ranking all records) as a permutation, sorted descending by the
source key rankKey, which maps None, a missing period, and an exactly-zero
relative strength to the -999 sentinel; no exception is raised for None
entries. -/
theorem ranking_sorted_by_sentinel_key (results stocks : List SectorRec) (tf : String) :
    List.Perm (get_sector_ranking results tf) (results.filter (fun s => !s.is_benchmark))
    ∧ List.Pairwise (fun x y => rankKey y tf ≤ rankKey x tf) (get_sector_ranking results tf)
    ∧ List.Perm (get_stock_ranking stocks tf) stocks
    ∧ List.Pairwise (fun x y => rankKey y tf ≤ rankKey x tf) (get_stock_ranking stocks tf) := by
  have htrans : ∀ a b c : SectorRec, decide (rankKey b tf ≤ rankKey a tf) = true →
      decide (rankKey c tf ≤ rankKey b tf) = true →
      decide (rankKey c tf ≤ rankKey a tf) = true := by
    intro a b c hab hbc
    rw [decide_eq_true_eq] at *
    exact le_trans hbc hab
  have htot : ∀ a b : SectorRec, decide (rankKey b tf ≤ rankKey a tf) = false →
      decide (rankKey a tf ≤ rankKey b tf) = true := by
    intro a b hab
    rw [decide_eq_false_iff_not] at hab
    rw [decide_eq_true_eq]
    exact le_of_not_le hab
  refine ⟨?_, ?_, ?_, ?_⟩
  · rw [get_sector_ranking]; exact pySort_perm _ _
  · rw [get_sector_ranking]
    exact (pySort_pairwise _ htrans htot _).imp (fun hxy => of_decide_eq_true hxy)
  · rw [get_stock_ranking]; exact pySort_perm _ _
  · rw [get_stock_ranking]
    exact (pySort_pairwise _ htrans htot _).imp (fun hxy => of_decide_eq_true hxy)

/-- C6 counterexample: with raw series macd = [1/250, 10] and signal =
[0, 0], the raw previous macd 1/250 is strictly greater than the raw
previous signal 0, so by the claim no positive crossover should be
reported, yet classify_macd (which rounds to two decimals first, turning
1/250 into 0.00) reports a PCO classification. -/
theorem classify_macd_raw_values_cex :
    isPCOsig (classify_macd [1/250, 10] [0, 0] 2) = true ∧ ¬ ((1/250 : ℚ) ≤ 0) := by
  constructor
  · norm_num [classify_macd, lastRounded, prevRounded, round2, roundHalfEven, isPCOsig]
  · norm_num

/-- C6 amended: for series of at least two values, classify_macd reports a
PCO classification iff, after rounding all four values to two decimals as
the source does, the previous macd is at most the previous signal and the
current macd strictly exceeds the current signal; symmetrically for NCO;
in both cases the crossover outcome preempts tick classification. -/
theorem classify_macd_crossover_iff (macd_line signal_line : List ℚ) (zt : ℚ)
    (h : 2 ≤ macd_line.length) :
    (isPCOsig (classify_macd macd_line signal_line zt) = true ↔
      (prevRounded macd_line ≤ prevRounded signal_line ∧
       lastRounded signal_line < lastRounded macd_line))
    ∧ (isNCOsig (classify_macd macd_line signal_line zt) = true ↔
      (prevRounded signal_line ≤ prevRounded macd_line ∧
       lastRounded macd_line < lastRounded signal_line)) := by
  rw [classify_macd, if_neg (by omega)]
  constructor
  · by_cases h1 : prevRounded macd_line ≤ prevRounded signal_line ∧
        lastRounded signal_line < lastRounded macd_line
    · rw [if_pos h1]
      refine iff_of_true ?_ h1
      split_ifs <;> rfl
    · rw [if_neg h1]
      refine iff_of_false ?_ h1
      split_ifs <;> simp [isPCOsig]
  · by_cases h1 : prevRounded macd_line ≤ prevRounded signal_line ∧
        lastRounded signal_line < lastRounded macd_line
    · rw [if_pos h1]
      refine iff_of_false ?_ ?_
      · split_ifs <;> simp [isNCOsig]
      · intro hn
        exact absurd (lt_trans h1.2 hn.2) (lt_irrefl _)
    · rw [if_neg h1]
      by_cases h2 : prevRounded signal_line ≤ prevRounded macd_line ∧
          lastRounded macd_line < lastRounded signal_line
      · rw [if_pos h2]
        refine iff_of_true ?_ h2
        split_ifs <;> rfl
      · rw [if_neg h2]
        refine iff_of_false ?_ h2
        split_ifs <;> simp [isNCOsig]

/-- C6 witness: on macd = [0, 1] and signal = [0, 0] the rounded values
satisfy the crossover condition and a PCO classification is reported. -/
theorem classify_macd_crossover_iff_witness :
    isPCOsig (classify_macd [0, 1] [0, 0] 2) = true :=
  (classify_macd_crossover_iff [0, 1] [0, 0] 2 (by norm_num)).1.mpr
    (by norm_num [prevRounded, lastRounded, round2, roundHalfEven])

/-- C7: a non-benchmark record whose relative strength on the selected
period is the number r lands in outperforming iff r > 1 strictly, in
underperforming iff r < -1 strictly, and in neutral otherwise; in
particular r = 1 is neutral and r = 1.01 outperforming. -/
theorem categorize_sectors_boundaries (results : List SectorRec) (tf : String)
    (s : SectorRec) (r : ℚ) (hs : s ∈ results) (hb : s.is_benchmark = false)
    (hr : relAt s tf = some r) :
    (s ∈ (categorize_sectors results tf).1 ↔ 1 < r)
    ∧ (s ∈ (categorize_sectors results tf).2.2 ↔ r < -1)
    ∧ (s ∈ (categorize_sectors results tf).2.1 ↔ (¬ 1 < r ∧ ¬ r < -1)) := by
  have hkeep : s ∈ keepList results tf := by
    rw [keepList, List.mem_filter]
    refine ⟨hs, ?_⟩
    simp [hb, hr]
  rw [categorize_sectors]
  refine ⟨?_, ?_, ?_⟩
  · rw [show (∀ x y z : List SectorRec, (x, y, z).1 = x) from fun _ _ _ => rfl]
    rw [(pySort_perm _ _).mem_iff, List.mem_filter]
    constructor
    · rintro ⟨-, hp⟩
      rw [decide_eq_true_eq, hr] at hp
      exact hp
    · intro h1r
      exact ⟨hkeep, by simp [hr, h1r]⟩
  · rw [show (∀ x y z : List SectorRec, (x, y, z).2.2 = z) from fun _ _ _ => rfl]
    rw [(pySort_perm _ _).mem_iff, List.mem_filter]
    constructor
    · rintro ⟨-, hp⟩
      rw [decide_eq_true_eq, hr] at hp
      exact hp
    · intro h1r
      exact ⟨hkeep, by simp [hr, h1r]⟩
  · rw [show (∀ x y z : List SectorRec, (x, y, z).2.1 = y) from fun _ _ _ => rfl]
    rw [List.mem_filter]
    constructor
    · rintro ⟨-, hp⟩
      rw [Bool.and_eq_true, Bool.not_eq_true', Bool.not_eq_true',
        decide_eq_false_iff_not, decide_eq_false_iff_not, hr] at hp
      exact hp
    · intro hn
      refine ⟨hkeep, ?_⟩
      rw [Bool.and_eq_true, Bool.not_eq_true', Bool.not_eq_true',
        decide_eq_false_iff_not, decide_eq_false_iff_not, hr]
      exact hn

/-- C7 witness: relative strength exactly 1 lands in neutral, and 1.01
lands in outperforming. -/
theorem categorize_sectors_boundaries_witness :
    (⟨"A", [("Weekly", some 1)], false⟩ : SectorRec)
        ∈ (categorize_sectors [⟨"A", [("Weekly", some 1)], false⟩] "Weekly").2.1
    ∧ (⟨"B", [("Weekly", some (101/100))], false⟩ : SectorRec)
        ∈ (categorize_sectors [⟨"B", [("Weekly", some (101/100))], false⟩] "Weekly").1 := by
  constructor
  · exact (categorize_sectors_boundaries [⟨"A", [("Weekly", some 1)], false⟩] "Weekly"
      ⟨"A", [("Weekly", some 1)], false⟩ 1
      (List.mem_singleton.mpr rfl) rfl rfl).2.2.mpr (by norm_num)
  · exact (categorize_sectors_boundaries [⟨"B", [("Weekly", some (101/100))], false⟩] "Weekly"
      ⟨"B", [("Weekly", some (101/100))], false⟩ (101/100)
      (List.mem_singleton.mpr rfl) rfl rfl).1.mpr (by norm_num)

/-- C8: calculate_relative_strength emits, for a period of the instrument
dict, the difference of the two returns when both are numbers, and None
when the instrument return is None or the benchmark return is None or
missing. -/
theorem calculate_relative_strength_spec (sec bench : List (String × Option ℚ))
    (p : String) (a b : ℚ) :
    (((p, some a) ∈ sec → dictGet bench p none = some b →
        (p, some (a - b)) ∈ calculate_relative_strength sec bench)
    ∧ ((p, some a) ∈ sec → dictGet bench p none = none →
        (p, (none : Option ℚ)) ∈ calculate_relative_strength sec bench)
    ∧ ((p, (none : Option ℚ)) ∈ sec →
        (p, (none : Option ℚ)) ∈ calculate_relative_strength sec bench)) := by
  refine ⟨?_, ?_, ?_⟩
  · intro hmem hget
    rw [calculate_relative_strength]
    exact List.mem_map.mpr ⟨(p, some a), hmem, by simp [hget]⟩
  · intro hmem hget
    rw [calculate_relative_strength]
    exact List.mem_map.mpr ⟨(p, some a), hmem, by simp [hget]⟩
  · intro hmem
    rw [calculate_relative_strength]
    exact List.mem_map.mpr ⟨(p, none), hmem, by simp⟩

/-- C8 witness: instrument +5 vs benchmark +2 on the same period yields a
relative strength entry of +3. -/
theorem calculate_relative_strength_spec_witness :
    ("Weekly", some ((5:ℚ) - 2)) ∈
      calculate_relative_strength [("Weekly", some 5)] [("Weekly", some 2)] :=
  (calculate_relative_strength_spec [("Weekly", some 5)] [("Weekly", some 2)]
    "Weekly" 5 2).1 (List.mem_singleton.mpr rfl) rfl

/-- C9: on any numeric input, classify_rsi lands in one of the seven
threshold-defined zones and never in the Swing Zone fallback, which is
unreachable for numeric input. -/
theorem classify_rsi_seven_zones (v : ℚ) :
    classify_rsi (some v) ≠ RSIZone.swingZone
    ∧ classify_rsi (some v) ∈ [RSIZone.unsustainableBulls, RSIZone.bullishMomentum,
        RSIZone.near60, RSIZone.near50, RSIZone.near40, RSIZone.unsustainableBears,
        RSIZone.bearishMomentum] := by
  rw [classify_rsi]
  split_ifs with h1 h2 h3 h4 h5 h6 h7 <;> first
    | (refine ⟨by decide, by decide⟩)
    | (exact absurd (lt_of_not_le h5) h7)

/-- C10: when all four timeframe-group labels are empty strings, they are
all filtered out before the all-bullish check, whose all(...) over the
empty collection is vacuously true, so _determine_opportunity returns
STRONG BUY rather than WAIT / NO TRADE. -/
theorem determine_opportunity_vacuous_strong_buy :
    determine_opportunity "" "" "" "" = Opportunity.strongBuy
    ∧ determine_opportunity "" "" "" "" ≠ Opportunity.waitNoTrade := by
  decide

end StockTA
